import Mathlib

/-!
Verification of the ts-cli-template-maker scaffolding tool.

The development shallowly embeds the final-form script (`src/index.ts`):
the localization table, the input validators, the keyword transform, and
the project-materialization pipeline (modelled as a trace of external
effects parameterized by an environment that decides how each external
call behaves).  Machine strings are Lean `String`s; the WHATWG URL parser
used by the https validator is kept abstract as a function returning the
parsed origin, because the validator only inspects the origin.
-/

set_option maxRecDepth 4096

namespace TsCliTemplateMaker

/-- Language codes supported by the localization table (`en`, `pt`). -/
inductive Lang where
  | en
  | pt
  deriving DecidableEq

/-- Message identifiers: the fixed set of 22 keys of the `messages` object. -/
inductive MessageKey where
  | selectLanguage
  | projectName
  | repoURLType
  | repoURL
  | branchName
  | newRepoURL
  | mainBranchName
  | operationCanceled
  | creatingProject
  | installingDependencies
  | settingRemote
  | cleaningUpBranches
  | projectReady
  | errorPackageJson
  | errorOccurred
  | unknownErrorOccurred
  | invalidGitRepoURL
  | packageName
  | description
  | author
  | license
  | keywords
  deriving DecidableEq

/-- Localized message lookup: embedding of `messages[lang][key]` from
`src/messages.ts`, with the exact strings of the source. -/
def getMsg : Lang → MessageKey → String
  | .en, .selectLanguage => "Select your language"
  | .en, .projectName => "What is your project name? (c: to cancel)"
  | .en, .repoURLType => "Which type of URL do you want to use for the repository? (c: to cancel)"
  | .en, .repoURL => "Which TypeScript template repository you want to use (Repo URL)? (c: to cancel)"
  | .en, .branchName => "Which branch do you want to clone? (leave blank for default branch)"
  | .en, .newRepoURL => "Enter the new GitHub repository URL for your project (leave blank to skip, c: to cancel):"
  | .en, .mainBranchName => "Choose the main branch name (master or main):"
  | .en, .operationCanceled => "Operation canceled by the user."
  | .en, .creatingProject => "Creating a new project in ."
  | .en, .installingDependencies => "Installing dependencies 💼..."
  | .en, .settingRemote => "Setting new remote origin to "
  | .en, .cleaningUpBranches => "Cleaning up branches..."
  | .en, .projectReady => "Project is ready to go! 🚀🚀🚀"
  | .en, .errorPackageJson => "Error: package.json not found in the template. Please check the template structure."
  | .en, .errorOccurred => "Failed to create project due to an error: "
  | .en, .unknownErrorOccurred => "An unknown error occurred: "
  | .en, .invalidGitRepoURL => "Please enter a valid GitHub repository URL."
  | .en, .packageName => "Enter the package name (leave blank for default):"
  | .en, .description => "Enter the project description (leave blank for none):"
  | .en, .author => "Enter the author name (leave blank for none):"
  | .en, .license => "Enter the project license (default: ISC):"
  | .en, .keywords => "Enter keywords separated by commas (leave blank for none):"
  | .pt, .selectLanguage => "Selecione seu idioma"
  | .pt, .projectName => "Qual é o nome do seu projeto? (c: para cancelar)"
  | .pt, .repoURLType => "Qual tipo de URL você deseja usar para o repositório? (c: para cancelar)"
  | .pt, .repoURL => "Qual repositório de template TypeScript você deseja usar (URL do repositório)? (c: para cancelar)"
  | .pt, .branchName => "Qual branch você deseja clonar? (deixe em branco para a branch padrão)"
  | .pt, .newRepoURL => "Insira a nova URL do repositório GitHub para o seu projeto (deixe em branco para pular, c: para cancelar):"
  | .pt, .mainBranchName => "Escolha o nome da branch principal (master ou main):"
  | .pt, .operationCanceled => "Operação cancelada pelo usuário."
  | .pt, .creatingProject => "Criando um novo projeto em ."
  | .pt, .installingDependencies => "Instalando dependências 💼..."
  | .pt, .settingRemote => "Configurando novo remote origin para "
  | .pt, .cleaningUpBranches => "Limpando branches..."
  | .pt, .projectReady => "Projeto está pronto para começar! 🚀🚀🚀"
  | .pt, .errorPackageJson => "Erro: package.json não encontrado no template. Verifique a estrutura do template."
  | .pt, .errorOccurred => "Falha ao criar o projeto devido a um erro: "
  | .pt, .unknownErrorOccurred => "Ocorreu um erro desconhecido: "
  | .pt, .invalidGitRepoURL => "Por favor, insira uma URL válida do repositório GitHub."
  | .pt, .packageName => "Digite o nome do pacote (deixe em branco para o padrão):"
  | .pt, .description => "Digite a descrição do projeto (deixe em branco para nenhum):"
  | .pt, .author => "Digite o nome do autor (deixe em branco para nenhum):"
  | .pt, .license => "Digite a licença do projeto (padrão: ISC):"
  | .pt, .keywords => "Digite palavras-chave separadas por vírgulas (deixe em branco para nenhuma):"

/-- Result of an inquirer `validate` callback: `true` (accept) or an error
string to redisplay. -/
inductive ValidationResult where
  | ok
  | err (msg : String)
  deriving DecidableEq

/-- ASCII letter or digit, the `a-zA-Z0-9` part of the validators' regexes. -/
def isAsciiAlphanum (c : Char) : Bool :=
  ('a' ≤ c && c ≤ 'z') || ('A' ≤ c && c ≤ 'Z') || ('0' ≤ c && c ≤ '9')

/-- Character class of the project-name regex `[a-zA-Z0-9_-]`. -/
def isProjectNameChar (c : Char) : Bool :=
  isAsciiAlphanum c || c = '_' || c = '-'

/-- Matcher for the anchored regex `^[a-zA-Z0-9_-]+$` used by
`isValidProjectName`: one or more characters of the class, nothing else. -/
def projectNameRegexTest (name : String) : Bool :=
  !name.data.isEmpty && name.data.all isProjectNameChar

/-- Embedding of `ProjectInitializer.isValidProjectName`: the regex test, or
the localized `projectName` message on failure (the source reuses the prompt
message as the error message). -/
def isValidProjectName (lang : Lang) (name : String) : ValidationResult :=
  if projectNameRegexTest name then .ok else .err (getMsg lang .projectName)

/-- Character class `[\w.-]` of the ssh regex: JS word characters
(`A-Za-z0-9_`), dot and dash. -/
def isOwnerRepoChar (c : Char) : Bool :=
  isAsciiAlphanum c || c = '_' || c = '.' || c = '-'

/-- Literal head `git@github.com:` of the ssh regex. -/
def sshLead : List Char := "git@github.com:".data

/-- Tail check of the ssh matcher, applied after the greedy owner segment:
the remainder must be a slash followed by class characters that end in
`.git` with at least one repo character before it. -/
def sshTailTest (owner rest : List Char) : Bool :=
  match rest with
  | '/' :: t =>
      !owner.isEmpty && t.all isOwnerRepoChar
        && ".git".data.isSuffixOf t && decide (5 ≤ t.length)
  | _ => false

/-- Deterministic matcher for the anchored regex
`^git@github\.com:[\w.-]+\/[\w.-]+\.git$` used by the ssh branch of
`isValidGitRepoURL`.  The class `[\w.-]` excludes `/`, so the scanner can
take the owner segment greedily up to the single slash; the repo segment
together with the forced `.git` tail is all class characters ending in
`.git` with at least one character before it. -/
def sshRegexTest (url : String) : Bool :=
  sshLead.isPrefixOf url.data &&
    sshTailTest ((url.data.drop sshLead.length).takeWhile isOwnerRepoChar)
      ((url.data.drop sshLead.length).dropWhile isOwnerRepoChar)

/-- Embedding of `ProjectInitializer.isValidGitRepoURL`.  `parseOrigin`
abstracts `new URL(url).origin`: `none` models a parse failure (the
constructor throwing), `some o` a successful parse with origin `o`. -/
def isValidGitRepoURL (parseOrigin : String → Option String) (lang : Lang)
    (url ty : String) : ValidationResult :=
  if ty = "https" then
    match parseOrigin url with
    | some origin =>
        if origin = "https://github.com" then .ok
        else .err (getMsg lang .invalidGitRepoURL)
    | none => .err (getMsg lang .invalidGitRepoURL)
  else if ty = "ssh" then
    if sshRegexTest url then .ok else .err (getMsg lang .invalidGitRepoURL)
  else .err (getMsg lang .invalidGitRepoURL)

/-- Whitespace characters stripped by the JS `trim` used on keyword tokens
(space, tab, line feed, carriage return — the ones that can occur in CLI
input). -/
def isJsSpace (c : Char) : Bool :=
  c = ' ' || c = '\t' || c = '\n' || c = '\r'

/-- Model of JS `String.prototype.trim` on the character list. -/
def trimChars (l : List Char) : List Char :=
  ((l.dropWhile isJsSpace).reverse.dropWhile isJsSpace).reverse

/-- Model of JS `String.prototype.split` with a one-character separator:
`"".split(sep)` is `[""]`, and separators delimit (possibly empty) chunks. -/
def splitOnChar (sep : Char) : List Char → List (List Char)
  | [] => [[]]
  | c :: cs =>
    if c = sep then [] :: splitOnChar sep cs
    else
      match splitOnChar sep cs with
      | [] => [[c]]
      | x :: xs => (c :: x) :: xs

/-- ASCII model of JS `String.prototype.toLowerCase` on one character. -/
def asciiToLower (c : Char) : Char :=
  if 'A' ≤ c && c ≤ 'Z' then Char.ofNat (c.toNat + 32) else c

/-- Model of JS `String.prototype.toLowerCase`. -/
def jsToLowerCase (s : String) : String :=
  String.mk (s.data.map asciiToLower)

/-- Embedding of the `keywords` prompt filter:
`input.split(',').map(k => k.trim()).filter(k => k.length > 0)`. -/
def keywordsFilter (input : String) : List String :=
  (((splitOnChar ',' input.data).map (fun l => String.mk (trimChars l))).filter
    (fun k => k.length > 0))

/-- Specification-side characterization of the ssh pattern
`git@github.com:<owner>/<repo>.git` with one or more word/dot/dash
characters for owner and repo, following the spec's words; compared with
the source-derived matcher `sshRegexTest`. -/
def sshSpec (url : String) : Prop :=
  ∃ owner repo : List Char, owner ≠ [] ∧ repo ≠ [] ∧
    (∀ c ∈ owner, isOwnerRepoChar c = true) ∧
    (∀ c ∈ repo, isOwnerRepoChar c = true) ∧
    url.data = sshLead ++ owner ++ '/' :: (repo ++ ".git".data)

/-- JS `a || b` on strings: the empty string is falsy. -/
def jsOrElse (a b : String) : String :=
  if a = "" then b else a

/-- Helper for JS `String.prototype.replace` with a string pattern: removes
the first (leftmost) occurrence of `pat` from the list, or returns the list
unchanged when `pat` does not occur. -/
def dropFirstOccAux (pat : List Char) : List Char → List Char
  | [] => []
  | c :: cs =>
    if pat.isPrefixOf (c :: cs) then (c :: cs).drop pat.length
    else c :: dropFirstOccAux pat cs

/-- Model of JS `s.replace(pat, '')` for a string pattern: only the first
occurrence is removed. -/
def jsReplaceOnce (pat s : String) : String :=
  String.mk (dropFirstOccAux pat.data s.data)

/-- Decides whether `pat` occurs contiguously inside `l`. -/
def containsSeq (pat : List Char) : List Char → Bool
  | [] => pat.isEmpty
  | c :: cs => pat.isPrefixOf (c :: cs) || containsSeq pat cs

/-- Specification-side operation, following the spec's words: "the
repository URL with any trailing `.git` suffix stripped"; compared with the
source's `replace('.git', '')`. -/
def specStripTrailingGit (s : String) : String :=
  if ".git".data.isSuffixOf s.data then String.mk (s.data.take (s.data.length - 4))
  else s

/-- A URL whose only possible `.git` occurrence is the trailing suffix:
no `.git` occurs within the string minus its last character. -/
abbrev onlyTrailingGit (s : String) : Prop :=
  containsSeq ".git".data s.data.dropLast = false

/-- The manifest document, restricted to the fields the pipeline touches
(`JSON.parse` result with `repository`/`bugs` sub-objects present). -/
structure PackageFile where
  name : String
  version : String
  description : String
  author : String
  license : String
  keywords : List String
  repository_url : String
  bugs_url : String
  homepage : String
  deriving DecidableEq

/-- The answers collected by `promptUser` (the destructured record in
`createProject`). -/
structure Answers where
  projectName : String
  repoURL : String
  branchName : String
  newRepoURL : String
  packageName : String
  description : String
  author : String
  license : String
  keywords : List String
  mainBranchName : String
  deriving DecidableEq

/-- Embedding of the manifest rewrite of `createProject` (lines 248-257):
field assignments on the parsed `package.json`, with `repository.url` set
first and `bugs.url` / `homepage` derived from it by
`replace('.git', '')`. -/
def updatePackage (a : Answers) (p : PackageFile) : PackageFile :=
  let repoUrl := jsOrElse a.newRepoURL a.repoURL
  { p with
    name := a.packageName
    version := "1.0.0"
    description := a.description
    author := a.author
    license := a.license
    keywords := a.keywords
    repository_url := repoUrl
    bugs_url := jsReplaceOnce ".git" repoUrl ++ "/issues"
    homepage := jsReplaceOnce ".git" repoUrl ++ "#readme" }

/-- C1 as the claim states it: the rewritten manifest's fields, with
`bugs.url` and `homepage` derived by stripping a trailing `.git` suffix
(`specStripTrailingGit`). -/
abbrev manifestRewriteClaim (a : Answers) (p : PackageFile) : Prop :=
  let u := jsOrElse a.newRepoURL a.repoURL
  let q := updatePackage a p
  q.name = a.packageName ∧ q.version = "1.0.0" ∧ q.description = a.description ∧
  q.author = a.author ∧ q.license = a.license ∧ q.keywords = a.keywords ∧
  q.repository_url = u ∧
  q.bugs_url = specStripTrailingGit u ++ "/issues" ∧
  q.homepage = specStripTrailingGit u ++ "#readme"

/-- Validity of a full set of answers with respect to the prompt
validators, for the URL kind `ty` selected at the second prompt. -/
abbrev ValidAnswers (parseOrigin : String → Option String) (lang : Lang)
    (ty : String) (a : Answers) : Prop :=
  isValidProjectName lang a.projectName = .ok ∧
  (ty = "https" ∨ ty = "ssh") ∧
  isValidGitRepoURL parseOrigin lang a.repoURL ty = .ok ∧
  (a.newRepoURL = "" ∨ isValidGitRepoURL parseOrigin lang a.newRepoURL ty = .ok) ∧
  (a.mainBranchName = "master" ∨ a.mainBranchName = "main")

/-- External effects performed by the materialization pipeline, one
constructor per `console` call, filesystem write, or `execSync`
invocation. -/
inductive Effect where
  | log (msg : String)
  | logError (msg : String)
  | gitClone (branchOption repoURL projectName : String)
  | writePackage (path : String) (p : PackageFile)
  | npmInstall (projectName : String)
  | setRemote (projectName url : String)
  | orphanAndDeleteCloned (projectName mainBranch clonedBranch : String)
  | listMergedBranches (projectName : String)
  | deleteBranch (projectName branch : String)
  | commitChanges (projectName : String)
  deriving DecidableEq

/-- Environment deciding how each external call behaves: `some msg` on an
error field means the corresponding `execSync` throws an `Error` with that
message; `listMergedOutput` is the stdout of the merged-branch listing. -/
structure Env where
  packageJsonExists : Bool
  packageFile : PackageFile
  cloneError : Option String
  installError : Option String
  setRemoteError : Option String
  orphanError : Option String
  listMergedError : Option String
  listMergedOutput : String
  deleteBranchError : String → Option String
  commitError : Option String

/-- Result of a pipeline fragment: the effects it performed, and the
message of the `Error` it threw, if any. -/
abbrev StepResult : Type := List Effect × Option String

/-- A pure effect that cannot throw. -/
def emit (e : Effect) : StepResult := ([e], none)

/-- An external call: the effect is issued, and the environment decides
whether it throws. -/
def runExt (e : Effect) (r : Option String) : StepResult := ([e], r)

/-- Sequencing with exception propagation: if the first fragment threw,
the rest does not run. -/
def andThen (s : StepResult) (rest : Unit → StepResult) : StepResult :=
  match s with
  | (es, some e) => (es, some e)
  | (es, none) => (es ++ (rest ()).1, (rest ()).2)

/-- The ternary `branchName ? '-b ' + branchName : ''` of the clone step. -/
def jsBranchOption (branchName : String) : String :=
  if branchName ≠ "" then "-b " ++ branchName else ""

/-- Embedding of the branch list computed before the deletion loop:
`output.split('\n').map(b => b.trim()).filter(b => b && b !== mainBranchName)`. -/
def computeBranchesToDelete (output mainBranchName : String) : List String :=
  (((splitOnChar '\n' output.data).map (fun l => String.mk (trimChars l))).filter
    (fun b => b != "" && b != mainBranchName))

/-- The deletion loop: for each branch, log and force-delete; an `execSync`
failure aborts the loop. -/
def runDeleteLoop (pn : String) (env : Env) : List String → StepResult
  | [] => ([], none)
  | b :: bs =>
    match env.deleteBranchError b with
    | some m => ([.log ("Deleting branch: " ++ b), .deleteBranch pn b], some m)
    | none =>
      let r := runDeleteLoop pn env bs
      (Effect.log ("Deleting branch: " ++ b) :: Effect.deleteBranch pn b :: r.1, r.2)

/-- Embedding of the body of `createProject` after the prompts (the code
inside the `try`, lines 241-291): clone, manifest check and rewrite,
install, optional remote repointing, branch cleanup, commit; the second
component is the uncaught error, if one was thrown. -/
def createProjectBody (lang : Lang) (a : Answers) (env : Env) : StepResult :=
  andThen (emit (.log (getMsg lang .creatingProject ++ " ./" ++ a.projectName ++ " 👷‍♀️🚧"))) fun _ =>
  andThen (runExt (.gitClone (jsBranchOption a.branchName) a.repoURL a.projectName) env.cloneError) fun _ =>
  if env.packageJsonExists then
    andThen (emit (.writePackage (a.projectName ++ "/package.json") (updatePackage a env.packageFile))) fun _ =>
    andThen (emit (.log (getMsg lang .installingDependencies))) fun _ =>
    andThen (runExt (.npmInstall a.projectName) env.installError) fun _ =>
    andThen (if a.newRepoURL ≠ "" then
        andThen (emit (.log (getMsg lang .settingRemote ++ " " ++ a.newRepoURL ++ " 🔧"))) fun _ =>
        runExt (.setRemote a.projectName a.newRepoURL) env.setRemoteError
      else ([], none)) fun _ =>
    andThen (emit (.log (getMsg lang .cleaningUpBranches))) fun _ =>
    andThen (runExt (.orphanAndDeleteCloned a.projectName a.mainBranchName a.branchName) env.orphanError) fun _ =>
    andThen (runExt (.listMergedBranches a.projectName) env.listMergedError) fun _ =>
    andThen (runDeleteLoop a.projectName env (computeBranchesToDelete env.listMergedOutput a.mainBranchName)) fun _ =>
    andThen (emit (.log ("Committing changes to " ++ a.mainBranchName ++ " branch"))) fun _ =>
    andThen (runExt (.commitChanges a.projectName) env.commitError) fun _ =>
    emit (.log (getMsg lang .projectReady))
  else
    emit (.logError (getMsg lang .errorPackageJson))

/-- Embedding of `createProject` including its `catch` (lines 292-298):
a thrown `Error` is converted to a single `errorOccurred` line and does not
propagate. -/
def createProjectRun (lang : Lang) (a : Answers) (env : Env) : List Effect :=
  match createProjectBody lang a env with
  | (es, none) => es
  | (es, some m) => es ++ [.logError (getMsg lang .errorOccurred ++ m)]

/-- How the process run ends: an explicit `process.exit(code)`, or normal
completion of the (fully handled) promise chain. -/
inductive Outcome where
  | exited (code : Nat)
  | completed
  deriving DecidableEq

/-- The process exit status: an explicit exit keeps its code; a run whose
promise chain completed with every rejection handled exits with the default
status 0. -/
def exitCodeOf : Outcome → Nat
  | .exited c => c
  | .completed => 0

/-- Model of the prompt phase: the first input typed at the project-name
prompt, and an error thrown while prompting (which rejects the
`createProject` promise), if any. -/
structure PromptEnv where
  rawProjectNameInput : String
  promptError : Option String

/-- Embedding of the whole program: the project-name prompt's cancel
sentinel check (`input.toLowerCase() === 'c'` prints a blank line and the
cancel notice, then `process.exit(0)`), then `createProject` with its
internal catch, wrapped in the top-level `.catch` of lines 304-310. -/
def runMain (lang : Lang) (penv : PromptEnv) (a : Answers) (env : Env) :
    List Effect × Outcome :=
  if jsToLowerCase penv.rawProjectNameInput = "c" then
    ([.log "", .log (getMsg lang .operationCanceled)], .exited 0)
  else
    match penv.promptError with
    | some m => ([.logError (getMsg lang .errorOccurred ++ m)], .completed)
    | none => (createProjectRun lang a env, .completed)

/-- True exactly on `logError` effects. -/
def isLogError : Effect → Bool
  | .logError _ => true
  | _ => false

/-- Number of error lines printed in a trace. -/
def countErrorLogs (es : List Effect) : Nat :=
  (es.filter isLogError).length

/-- True exactly on the pipeline steps that follow the manifest check. -/
def isLaterPipelineStep : Effect → Bool
  | .writePackage _ _ => true
  | .npmInstall _ => true
  | .setRemote _ _ => true
  | .orphanAndDeleteCloned _ _ _ => true
  | .listMergedBranches _ => true
  | .deleteBranch _ _ => true
  | .commitChanges _ => true
  | _ => false

/-- A parse oracle under which every string fails to parse (irrelevant for
the ssh branch, which never consults the parser). -/
def parseNone : String → Option String := fun _ => none

/-- Concrete template manifest used by witnesses and counterexamples. -/
def exPkg : PackageFile :=
  { name := "ts-template"
    version := "0.0.1"
    description := "template"
    author := "acme"
    license := "MIT"
    keywords := ["template"]
    repository_url := "https://github.com/acme/ts-template"
    bugs_url := "https://github.com/acme/ts-template/issues"
    homepage := "https://github.com/acme/ts-template#readme" }

/-- Valid answers (ssh kind) whose template URL contains `.git` in a
non-trailing position in its owner segment. -/
def exAnswersSsh : Answers :=
  { projectName := "demo"
    repoURL := "git@github.com:my.gitx/repo.git"
    branchName := ""
    newRepoURL := ""
    packageName := "demo"
    description := ""
    author := ""
    license := "ISC"
    keywords := ["a", "b"]
    mainBranchName := "main" }

/-- Valid-looking answers matching the spec's end-to-end scenario (https
kind, no `.git` anywhere in the URL). -/
def exAnswersHttps : Answers :=
  { projectName := "demo"
    repoURL := "https://github.com/acme/ts-template"
    branchName := ""
    newRepoURL := ""
    packageName := "demo"
    description := ""
    author := ""
    license := "ISC"
    keywords := ["a", "b"]
    mainBranchName := "main" }

/-- Environment where the clone succeeds but no manifest file exists. -/
def envNoManifest : Env :=
  { packageJsonExists := false
    packageFile := exPkg
    cloneError := none
    installError := none
    setRemoteError := none
    orphanError := none
    listMergedError := none
    listMergedOutput := ""
    deleteBranchError := fun _ => none
    commitError := none }

/-- Environment where the clone succeeds, the manifest exists, and the
dependency install fails. -/
def envInstallFails : Env :=
  { envNoManifest with
    packageJsonExists := true
    installError := some "Command failed: npm install" }

/-- Fully healthy environment with two leftover merged branches. -/
def envHealthy : Env :=
  { envNoManifest with
    packageJsonExists := true
    listMergedOutput := "main\n  feature-x \nfix-1\n" }

/-- Prompt phase where the user types a normal project name. -/
def penvDemo : PromptEnv :=
  { rawProjectNameInput := "demo", promptError := none }

/-- Prompt phase where the user types the lower-case cancel sentinel. -/
def penvCancelLower : PromptEnv :=
  { rawProjectNameInput := "c", promptError := none }

/-- Prompt phase where the user types the upper-case cancel sentinel. -/
def penvCancelUpper : PromptEnv :=
  { rawProjectNameInput := "C", promptError := none }

/-! Helper lemmas. -/

theorem string_eq_empty_iff (s : String) : s = "" ↔ s.data = [] := by
  constructor
  · intro h
    subst h
    rfl
  · intro h
    apply String.ext
    rw [h]

theorem isValidProjectName_ok_iff (lang : Lang) (s : String) :
    isValidProjectName lang s = .ok ↔ projectNameRegexTest s = true := by
  unfold isValidProjectName
  split
  · rename_i h
    simp [h]
  · rename_i h
    simp [h]

theorem isPrefixOf_append_self (p s : List Char) :
    p.isPrefixOf (p ++ s) = true := by
  induction p with
  | nil => simp [List.isPrefixOf]
  | cons a as ih => simp [List.isPrefixOf, ih]

theorem eq_append_drop_of_isPrefixOf {p s : List Char}
    (h : p.isPrefixOf s = true) : s = p ++ s.drop p.length := by
  induction p generalizing s with
  | nil => simp
  | cons a as ih =>
    cases s with
    | nil => simp [List.isPrefixOf] at h
    | cons b bs =>
      simp only [List.isPrefixOf, Bool.and_eq_true, beq_iff_eq] at h
      obtain ⟨rfl, h2⟩ := h
      have h3 := ih h2
      calc (a :: bs)
          = a :: (as ++ bs.drop as.length) := by rw [← h3]
        _ = (a :: as) ++ (a :: bs).drop (a :: as).length := by simp

theorem isSuffixOf_append_self (p s : List Char) :
    p.isSuffixOf (s ++ p) = true := by
  simp only [List.isSuffixOf, List.reverse_append]
  exact isPrefixOf_append_self _ _

theorem exists_append_of_isSuffixOf {p s : List Char}
    (h : p.isSuffixOf s = true) : ∃ t, s = t ++ p := by
  have h1 : p.reverse.isPrefixOf s.reverse = true := by
    simpa [List.isSuffixOf] using h
  have h2 := eq_append_drop_of_isPrefixOf h1
  refine ⟨(s.reverse.drop p.reverse.length).reverse, ?_⟩
  have h3 := congrArg List.reverse h2
  simpa using h3

theorem takeWhile_dropWhile_append_all {p : Char → Bool} {xs : List Char}
    (y : Char) (ys : List Char) (hxs : ∀ c ∈ xs, p c = true)
    (hy : p y = false) :
    (xs ++ y :: ys).takeWhile p = xs ∧ (xs ++ y :: ys).dropWhile p = y :: ys := by
  induction xs with
  | nil => simp [List.takeWhile_cons, List.dropWhile_cons, hy]
  | cons a as ih =>
    have ha : p a = true := hxs a (by simp)
    have ih2 := ih (fun c hc => hxs c (by simp [hc]))
    simp [List.takeWhile_cons, List.dropWhile_cons, ha, ih2.1, ih2.2]

theorem containsSeq_cons_of (pat : List Char) (c : Char) (cs : List Char)
    (h : containsSeq pat cs = true) : containsSeq pat (c :: cs) = true := by
  unfold containsSeq
  rw [Bool.or_eq_true]
  right
  exact h

theorem containsSeq_of_decomp {pat x y : List Char} (hp : pat ≠ []) :
    containsSeq pat (x ++ pat ++ y) = true := by
  induction x with
  | nil =>
    cases pat with
    | nil => exact absurd rfl hp
    | cons a as =>
      rw [List.nil_append, List.cons_append]
      unfold containsSeq
      rw [Bool.or_eq_true]
      left
      rw [← List.cons_append]
      exact isPrefixOf_append_self _ _
  | cons c cs ih =>
    rw [List.cons_append, List.cons_append]
    exact containsSeq_cons_of _ _ _ ih

theorem exists_decomp_of_containsSeq {pat l : List Char}
    (h : containsSeq pat l = true) : ∃ x y, l = x ++ pat ++ y := by
  induction l with
  | nil =>
    refine ⟨[], [], ?_⟩
    unfold containsSeq at h
    simp at h
    simp [h]
  | cons c cs ih =>
    unfold containsSeq at h
    rw [Bool.or_eq_true] at h
    cases h with
    | inl h1 =>
      refine ⟨[], (c :: cs).drop pat.length, ?_⟩
      rw [List.nil_append]
      exact eq_append_drop_of_isPrefixOf h1
    | inr h2 =>
      obtain ⟨x, y, hxy⟩ := ih h2
      exact ⟨c :: x, y, by rw [hxy, List.cons_append, List.cons_append]⟩

theorem dropFirstOccAux_of_not_contains {pat l : List Char}
    (h : containsSeq pat l = false) : dropFirstOccAux pat l = l := by
  induction l with
  | nil => rfl
  | cons c cs ih =>
    unfold containsSeq at h
    rw [Bool.or_eq_false_iff] at h
    obtain ⟨h1, h2⟩ := h
    unfold dropFirstOccAux
    rw [if_neg (by simp [h1]), ih h2]

theorem dropFirstOccAux_append_self {x : List Char}
    (h : containsSeq ".git".data (x ++ ".git".data).dropLast = false) :
    dropFirstOccAux ".git".data (x ++ ".git".data) = x := by
  induction x with
  | nil => decide
  | cons c cs ih =>
    have hne : cs ++ ".git".data ≠ [] := by simp
    have hdl : ((c :: cs) ++ ".git".data).dropLast =
        c :: (cs ++ ".git".data).dropLast := by
      rw [List.cons_append]
      have h2 := List.dropLast_append_of_ne_nil [c] hne
      simpa using h2
    cases hp : ".git".data.isPrefixOf ((c :: cs) ++ ".git".data) with
    | true =>
      exfalso
      have hld := eq_append_drop_of_isPrefixOf hp
      have hlen := congrArg List.length hld
      rw [List.length_append, List.length_append, List.length_cons] at hlen
      have hdne : (((c :: cs) ++ ".git".data).drop ".git".data.length) ≠ [] := by
        apply List.length_pos.mp
        omega
      have hdl2 : ((c :: cs) ++ ".git".data).dropLast =
          ".git".data ++
            ((((c :: cs) ++ ".git".data).drop ".git".data.length).dropLast) := by
        conv_lhs => rw [hld]
        exact List.dropLast_append_of_ne_nil _ hdne
      rw [hdl2] at h
      have hcontains := @containsSeq_of_decomp ".git".data []
        ((((c :: cs) ++ ".git".data).drop ".git".data.length).dropLast) (by decide)
      simp only [List.nil_append] at hcontains
      rw [hcontains] at h
      exact absurd h (by simp)
    | false =>
      rw [hdl] at h
      unfold containsSeq at h
      rw [Bool.or_eq_false_iff] at h
      rw [List.cons_append] at hp ⊢
      unfold dropFirstOccAux
      rw [if_neg (by simp [hp]), ih h.2]

theorem replaceOnce_strip_list {l : List Char}
    (h : containsSeq ".git".data l.dropLast = false) :
    dropFirstOccAux ".git".data l =
      (if ".git".data.isSuffixOf l = true then l.take (l.length - 4) else l) := by
  by_cases hsuf : ".git".data.isSuffixOf l = true
  · rw [if_pos hsuf]
    obtain ⟨x, hx⟩ := exists_append_of_isSuffixOf hsuf
    subst hx
    rw [dropFirstOccAux_append_self h]
    have hlen4 : (".git".data).length = 4 := rfl
    rw [List.length_append, hlen4, Nat.add_sub_cancel, List.take_left]
  · rw [if_neg hsuf]
    apply dropFirstOccAux_of_not_contains
    cases hc : containsSeq ".git".data l with
    | false => rfl
    | true =>
      exfalso
      obtain ⟨x, y, hxy⟩ := exists_decomp_of_containsSeq hc
      cases y with
      | nil =>
        rw [List.append_nil] at hxy
        apply hsuf
        rw [hxy]
        exact isSuffixOf_append_self _ _
      | cons d ds =>
        have hy : (d :: ds) ≠ [] := by simp
        have hdl : l.dropLast = x ++ ".git".data ++ (d :: ds).dropLast := by
          rw [hxy]
          exact List.dropLast_append_of_ne_nil _ hy
        rw [hdl, @containsSeq_of_decomp ".git".data x (d :: ds).dropLast (by decide)]
          at h
        exact absurd h (by simp)

theorem jsReplaceOnce_eq_strip {s : String} (h : onlyTrailingGit s) :
    jsReplaceOnce ".git" s = specStripTrailingGit s := by
  unfold onlyTrailingGit at h
  unfold jsReplaceOnce specStripTrailingGit
  have hmain := replaceOnce_strip_list h
  by_cases hsuf : ".git".data.isSuffixOf s.data = true
  · rw [if_pos hsuf] at hmain ⊢
    rw [hmain]
  · rw [if_neg hsuf] at hmain ⊢
    rw [hmain]

theorem sshRegexTest_iff (url : String) :
    sshRegexTest url = true ↔ sshSpec url := by
  constructor
  · intro h
    unfold sshRegexTest at h
    rw [Bool.and_eq_true] at h
    obtain ⟨hp, ht⟩ := h
    have hdecomp := eq_append_drop_of_isPrefixOf hp
    unfold sshTailTest at ht
    split at ht
    next t heq =>
      rw [Bool.and_eq_true, Bool.and_eq_true, Bool.and_eq_true] at ht
      obtain ⟨⟨⟨hne, hall⟩, hsuf⟩, hlen⟩ := ht
      rw [decide_eq_true_eq] at hlen
      obtain ⟨pre, hpre⟩ := exists_append_of_isSuffixOf hsuf
      refine ⟨(url.data.drop sshLead.length).takeWhile isOwnerRepoChar, pre,
        ?_, ?_, ?_, ?_, ?_⟩
      · simpa using hne
      · intro hnil
        rw [hpre, hnil] at hlen
        simp at hlen
      · exact fun c hc => List.mem_takeWhile_imp hc
      · intro c hc
        have hmem : c ∈ t := by
          rw [hpre]
          exact List.mem_append_left _ hc
        exact List.all_eq_true.mp hall c hmem
      · have hsplit : url.data.drop sshLead.length =
            (url.data.drop sshLead.length).takeWhile isOwnerRepoChar ++ ('/' :: t) := by
          conv_lhs => rw [← List.takeWhile_append_dropWhile isOwnerRepoChar
            (url.data.drop sshLead.length)]
          rw [heq]
        calc url.data
            = sshLead ++ url.data.drop sshLead.length := hdecomp
          _ = sshLead ++
              ((url.data.drop sshLead.length).takeWhile isOwnerRepoChar ++ ('/' :: t)) :=
                congrArg (sshLead ++ ·) hsplit
          _ = sshLead ++
              ((url.data.drop sshLead.length).takeWhile isOwnerRepoChar ++
                ('/' :: (pre ++ ".git".data))) := by rw [hpre]
    next =>
      exact absurd ht (by simp)
  · rintro ⟨owner, repo, ho, hr, hoc, hrc, heq⟩
    unfold sshRegexTest
    rw [Bool.and_eq_true]
    have hslash : isOwnerRepoChar '/' = false := by decide
    constructor
    · rw [heq]
      exact isPrefixOf_append_self _ _
    · have hdrop : url.data.drop sshLead.length =
          owner ++ '/' :: (repo ++ ".git".data) := by
        rw [heq]
        exact List.drop_left _ _
      rw [hdrop]
      have htw := takeWhile_dropWhile_append_all '/' (repo ++ ".git".data) hoc hslash
      rw [htw.1, htw.2]
      have hred : sshTailTest owner ('/' :: (repo ++ ".git".data)) =
          (!owner.isEmpty && (repo ++ ".git".data).all isOwnerRepoChar
            && ".git".data.isSuffixOf (repo ++ ".git".data)
            && decide (5 ≤ (repo ++ ".git".data).length)) := rfl
      rw [hred]
      rw [Bool.and_eq_true, Bool.and_eq_true, Bool.and_eq_true]
      refine ⟨⟨⟨?_, ?_⟩, ?_⟩, ?_⟩
      · simpa using ho
      · rw [List.all_append, Bool.and_eq_true]
        exact ⟨List.all_eq_true.mpr hrc, by decide⟩
      · exact isSuffixOf_append_self _ _
      · rw [decide_eq_true_eq]
        have hrlen : 1 ≤ repo.length := List.length_pos.mpr hr
        simp [List.length_append]
        omega

/-! Theorems for the claims. -/

/-- C8: the Localization Table is total: for every language code in
{en, pt} and every message identifier in the fixed set of 22 keys, `get`
returns a non-empty string. -/
theorem c8_messages_total (l : Lang) (k : MessageKey) :
    getMsg l k ≠ "" ∧ 0 < (getMsg l k).length := by
  cases l <;> cases k <;> exact ⟨by decide, by decide⟩

/-- C6: the project-name validator accepts exactly the strings matching
`^[A-Za-z0-9_-]+$`: it accepts `my-app_2`, rejects `my app` and the empty
string, and rejects every string containing a character outside letters,
digits, underscore and dash. -/
theorem c6_project_name_validator (lang : Lang) (s : String) :
    (isValidProjectName lang s = .ok ↔
      (s ≠ "" ∧ ∀ c ∈ s.data, isProjectNameChar c = true))
    ∧ isValidProjectName lang "my-app_2" = .ok
    ∧ isValidProjectName lang "my app" = .err (getMsg lang .projectName)
    ∧ isValidProjectName lang "" = .err (getMsg lang .projectName)
    ∧ (∀ t : String, ∀ c ∈ t.data, isProjectNameChar c = false →
        isValidProjectName lang t = .err (getMsg lang .projectName)) := by
  refine ⟨?_, ?_, ?_, ?_, ?_⟩
  · rw [isValidProjectName_ok_iff]
    simp [projectNameRegexTest, List.all_eq_true, string_eq_empty_iff]
  · have h : projectNameRegexTest "my-app_2" = true := by decide
    simp [isValidProjectName, h]
  · have h : projectNameRegexTest "my app" = false := by decide
    simp [isValidProjectName, h]
  · have h : projectNameRegexTest "" = false := by decide
    simp [isValidProjectName, h]
  · intro t c hc hbad
    have hall : t.data.all isProjectNameChar = false := by
      rw [List.all_eq_false]
      exact ⟨c, hc, by simp [hbad]⟩
    simp [isValidProjectName, projectNameRegexTest, hall]

/-- Witness for C6 at concrete inputs. -/
theorem c6_witness :
    isValidProjectName .en "my-app_2" = .ok ∧
    isValidProjectName .en "my app" = .err (getMsg .en .projectName) := by
  exact ⟨(c6_project_name_validator .en "x").2.1,
    (c6_project_name_validator .en "x").2.2.1⟩

/-- C7: the keyword transform splits on commas, trims each token and
discards empty tokens: the input `"a, b ,,c "` yields exactly
`["a","b","c"]`, the input `""` yields the empty sequence, and every
produced token is non-empty. -/
theorem c7_keyword_transform :
    keywordsFilter "a, b ,,c " = ["a", "b", "c"]
    ∧ keywordsFilter "" = []
    ∧ (∀ s : String, ∀ k ∈ keywordsFilter s, 0 < k.length) := by
  refine ⟨by decide, by decide, ?_⟩
  intro s k hk
  have h := (List.mem_filter.mp hk).2
  simpa using h

/-- Witness for C7: the general non-emptiness part applied at a concrete
input and token. -/
theorem c7_witness : 0 < ("a" : String).length :=
  c7_keyword_transform.2.2 "a,b" "a" (by decide)

theorem mem_andThen {eff : Effect} {s : StepResult} {rest : Unit → StepResult}
    (h : eff ∈ (andThen s rest).1) : eff ∈ s.1 ∨ eff ∈ (rest ()).1 := by
  obtain ⟨es, r⟩ := s
  cases r with
  | none =>
    simp only [andThen] at h
    exact List.mem_append.mp h
  | some m =>
    left
    simpa [andThen] using h

theorem mem_runDeleteLoop {eff : Effect} {pn : String} {env : Env} :
    ∀ {bs : List String}, eff ∈ (runDeleteLoop pn env bs).1 →
      (∃ b ∈ bs, eff = .log ("Deleting branch: " ++ b)) ∨
      (∃ b ∈ bs, eff = .deleteBranch pn b) := by
  intro bs
  induction bs with
  | nil =>
    intro h
    simp [runDeleteLoop] at h
  | cons b bs ih =>
    intro h
    unfold runDeleteLoop at h
    cases hd : env.deleteBranchError b with
    | some m =>
      rw [hd] at h
      simp only [List.mem_cons, List.not_mem_nil, or_false] at h
      rcases h with rfl | rfl
      · exact Or.inl ⟨b, by simp, rfl⟩
      · exact Or.inr ⟨b, by simp, rfl⟩
    | none =>
      rw [hd] at h
      simp only [List.mem_cons] at h
      rcases h with rfl | rfl | hmem
      · exact Or.inl ⟨b, by simp, rfl⟩
      · exact Or.inr ⟨b, by simp, rfl⟩
      · rcases ih hmem with ⟨b2, hb2, rfl⟩ | ⟨b2, hb2, rfl⟩
        · exact Or.inl ⟨b2, by simp [hb2], rfl⟩
        · exact Or.inr ⟨b2, by simp [hb2], rfl⟩

theorem not_mem_computeBranches (output mb : String) :
    mb ∉ computeBranchesToDelete output mb := by
  intro h
  have h2 := (List.mem_filter.mp h).2
  simp at h2

theorem countErrorLogs_append (l1 l2 : List Effect) :
    countErrorLogs (l1 ++ l2) = countErrorLogs l1 + countErrorLogs l2 := by
  simp [countErrorLogs, List.filter_append]

theorem countErrorLogs_andThen_zero {s : StepResult} {rest : Unit → StepResult}
    (h1 : countErrorLogs s.1 = 0) (h2 : countErrorLogs (rest ()).1 = 0) :
    countErrorLogs (andThen s rest).1 = 0 := by
  obtain ⟨es, r⟩ := s
  cases r with
  | some m => simpa [andThen] using h1
  | none =>
    simp only [andThen]
    rw [countErrorLogs_append]
    simp only at h1
    rw [h1, h2]

theorem countErrorLogs_runDeleteLoop (pn : String) (env : Env) :
    ∀ bs : List String, countErrorLogs (runDeleteLoop pn env bs).1 = 0 := by
  intro bs
  induction bs with
  | nil => rfl
  | cons b bs ih =>
    unfold runDeleteLoop
    cases hd : env.deleteBranchError b with
    | some m => simp [countErrorLogs, isLogError]
    | none => simpa [countErrorLogs, isLogError] using ih

theorem andThen_err_countZero {s : StepResult} {rest : Unit → StepResult}
    (hA : countErrorLogs s.1 = 0)
    (hB : ∀ m, (rest ()).2 = some m → countErrorLogs (rest ()).1 = 0) :
    ∀ m, (andThen s rest).2 = some m → countErrorLogs (andThen s rest).1 = 0 := by
  intro m hm
  obtain ⟨es, r⟩ := s
  cases r with
  | some e => simpa [andThen] using hA
  | none =>
    simp only [andThen] at hm ⊢
    rw [countErrorLogs_append]
    simp only at hA
    rw [hA, hB m hm]

theorem c3aux_body (lang : Lang) (a : Answers) (env : Env) :
    ∀ m, (createProjectBody lang a env).2 = some m →
      countErrorLogs (createProjectBody lang a env).1 = 0 := by
  unfold createProjectBody
  apply andThen_err_countZero
  · simp [emit, countErrorLogs, isLogError]
  apply andThen_err_countZero
  · simp [runExt, countErrorLogs, isLogError]
  cases hpkg : env.packageJsonExists with
  | false =>
    intro m hm
    simp [emit] at hm
  | true =>
    simp only [if_true]
    apply andThen_err_countZero
    · simp [emit, countErrorLogs, isLogError]
    apply andThen_err_countZero
    · simp [emit, countErrorLogs, isLogError]
    apply andThen_err_countZero
    · simp [runExt, countErrorLogs, isLogError]
    apply andThen_err_countZero
    · by_cases hn : a.newRepoURL = ""
      · rw [if_neg (by simp [hn])]
        rfl
      · rw [if_pos hn]
        apply countErrorLogs_andThen_zero
        · simp [emit, countErrorLogs, isLogError]
        · simp [runExt, countErrorLogs, isLogError]
    apply andThen_err_countZero
    · simp [emit, countErrorLogs, isLogError]
    apply andThen_err_countZero
    · simp [runExt, countErrorLogs, isLogError]
    apply andThen_err_countZero
    · simp [runExt, countErrorLogs, isLogError]
    apply andThen_err_countZero
    · exact countErrorLogs_runDeleteLoop _ _ _
    apply andThen_err_countZero
    · simp [emit, countErrorLogs, isLogError]
    apply andThen_err_countZero
    · simp [runExt, countErrorLogs, isLogError]
    intro m hm
    simp [emit] at hm

/-- C2: if the clone succeeds but no manifest file exists at
`<projectName>/package.json`, the run prints only the creating-project
line, issues the clone, prints the localized package.json-missing error,
performs none of the later pipeline steps (no write, install, remote,
branch or commit step), and throws no error. -/
theorem c2_missing_manifest (lang : Lang) (a : Answers) (env : Env)
    (hclone : env.cloneError = none) (hpkg : env.packageJsonExists = false) :
    createProjectRun lang a env =
      [.log (getMsg lang .creatingProject ++ " ./" ++ a.projectName ++ " 👷‍♀️🚧"),
       .gitClone (jsBranchOption a.branchName) a.repoURL a.projectName,
       .logError (getMsg lang .errorPackageJson)]
    ∧ (createProjectBody lang a env).2 = none
    ∧ (∀ eff ∈ createProjectRun lang a env, isLaterPipelineStep eff = false) := by
  have hbody : createProjectBody lang a env =
      ([.log (getMsg lang .creatingProject ++ " ./" ++ a.projectName ++ " 👷‍♀️🚧"),
        .gitClone (jsBranchOption a.branchName) a.repoURL a.projectName,
        .logError (getMsg lang .errorPackageJson)], none) := by
    unfold createProjectBody
    rw [hclone, hpkg]
    simp [andThen, emit, runExt]
  have hrun : createProjectRun lang a env =
      [.log (getMsg lang .creatingProject ++ " ./" ++ a.projectName ++ " 👷‍♀️🚧"),
       .gitClone (jsBranchOption a.branchName) a.repoURL a.projectName,
       .logError (getMsg lang .errorPackageJson)] := by
    unfold createProjectRun
    rw [hbody]
  refine ⟨hrun, by rw [hbody], ?_⟩
  intro eff heff
  rw [hrun] at heff
  simp only [List.mem_cons, List.not_mem_nil, or_false] at heff
  rcases heff with rfl | rfl | rfl <;> rfl

/-- Witness for C2: the missing-manifest trace at concrete answers and
environment. -/
theorem c2_witness :
    createProjectRun Lang.en exAnswersHttps envNoManifest =
      [.log (getMsg Lang.en .creatingProject ++ " ./" ++
        exAnswersHttps.projectName ++ " 👷‍♀️🚧"),
       .gitClone (jsBranchOption exAnswersHttps.branchName)
        exAnswersHttps.repoURL exAnswersHttps.projectName,
       .logError (getMsg Lang.en .errorPackageJson)] :=
  (c2_missing_manifest Lang.en exAnswersHttps envNoManifest rfl rfl).1

/-- C4: entering the cancel sentinel (`"c"` or `"C"`) at the project-name
prompt prints the blank line and the localized operation-canceled notice,
terminates with exit code 0, and no clone is ever attempted. -/
theorem c4_cancel_sentinel (lang : Lang) (penv : PromptEnv) (a : Answers)
    (env : Env)
    (h : penv.rawProjectNameInput = "c" ∨ penv.rawProjectNameInput = "C") :
    (runMain lang penv a env).1 = [.log "", .log (getMsg lang .operationCanceled)]
    ∧ (runMain lang penv a env).2 = .exited 0
    ∧ (∀ bo u pn, Effect.gitClone bo u pn ∉ (runMain lang penv a env).1) := by
  have hlow : jsToLowerCase penv.rawProjectNameInput = "c" := by
    cases h with
    | inl h1 => rw [h1]; decide
    | inr h1 => rw [h1]; decide
  unfold runMain
  rw [if_pos hlow]
  refine ⟨rfl, rfl, ?_⟩
  intro bo u pn hmem
  simp at hmem

/-- Witness for C4 at the upper-case sentinel. -/
theorem c4_witness :
    (runMain Lang.en penvCancelUpper exAnswersHttps envNoManifest).2 =
      .exited 0 :=
  (c4_cancel_sentinel Lang.en penvCancelUpper exAnswersHttps envNoManifest
    (Or.inr rfl)).2.1

/-- C9: the deletion loop never deletes the chosen main branch: for every
environment (hence every possible output of the branch-listing tool), no
delete command for the main branch appears in the run's trace, because the
branch list is filtered to exclude the main-branch name and empty
entries. -/
theorem c9_no_main_branch_delete (lang : Lang) (a : Answers) (env : Env) :
    Effect.deleteBranch a.projectName a.mainBranchName ∉
      createProjectRun lang a env := by
  intro hmem
  have hbody : Effect.deleteBranch a.projectName a.mainBranchName ∈
      (createProjectBody lang a env).1 := by
    unfold createProjectRun at hmem
    rcases hsplit : createProjectBody lang a env with ⟨es, r⟩
    rw [hsplit] at hmem
    cases r with
    | none =>
      exact hmem
    | some m =>
      rcases List.mem_append.mp hmem with h | h
      · exact h
      · simp at h
  clear hmem
  unfold createProjectBody at hbody
  rcases mem_andThen hbody with h | h
  · simp [emit] at h
  rcases mem_andThen h with h | h
  · simp [runExt] at h
  cases hpkg : env.packageJsonExists with
  | false =>
    rw [hpkg] at h
    simp [emit] at h
  | true =>
    rw [hpkg] at h
    simp only [if_true] at h
    rcases mem_andThen h with h | h
    · simp [emit] at h
    rcases mem_andThen h with h | h
    · simp [emit] at h
    rcases mem_andThen h with h | h
    · simp [runExt] at h
    rcases mem_andThen h with h | h
    · by_cases hn : a.newRepoURL = ""
      · rw [if_neg (by simp [hn])] at h
        simp at h
      · rw [if_pos hn] at h
        rcases mem_andThen h with h | h
        · simp [emit] at h
        · simp [runExt] at h
    rcases mem_andThen h with h | h
    · simp [emit] at h
    rcases mem_andThen h with h | h
    · simp [runExt] at h
    rcases mem_andThen h with h | h
    · simp [runExt] at h
    rcases mem_andThen h with h | h
    · rcases mem_runDeleteLoop h with ⟨b, hb, heq⟩ | ⟨b, hb, heq⟩
      · simp at heq
      · have hbmain : b = a.mainBranchName := by
          injection heq with h1 h2
          exact h2.symm
        rw [hbmain] at hb
        exact not_mem_computeBranches _ _ hb
    rcases mem_andThen h with h | h
    · simp [emit] at h
    rcases mem_andThen h with h | h
    · simp [runExt] at h
    simp [emit] at h

/-- Witness for C9: instantiated at a healthy environment (note the
hypothesis-free statement needs no discharge; the membership fact is
evaluated at a concrete trace). -/
theorem c9_witness :
    Effect.deleteBranch exAnswersHttps.projectName exAnswersHttps.mainBranchName ∉
      createProjectRun Lang.en exAnswersHttps envHealthy :=
  c9_no_main_branch_delete Lang.en exAnswersHttps envHealthy

/-- C3 counterexample: with a failing dependency install (a failure during
the pipeline), the error is caught by the catch inside `createProject`, not
by the top-level rejection handler, and the process completes with exit
status 0 — refuting the claim that such a failure makes the process exit
with a non-zero status via the unhandled-rejection path. -/
theorem c3_counterexample :
    (createProjectBody Lang.en exAnswersHttps envInstallFails).2 =
      some "Command failed: npm install"
    ∧ ¬ (exitCodeOf (runMain Lang.en penvDemo exAnswersHttps
          envInstallFails).2 ≠ 0) := by
  exact ⟨by decide, by decide⟩

/-- C3 amended: the process exits with status 0 on success, on user
cancellation, AND after any handled failure; a failure thrown during the
pipeline is caught exactly once, by the catch inside `createProject`, which
appends a single localized `errorOccurred` line with the underlying error
text (the rejection never reaches the runtime unhandled); an error thrown
while prompting is caught by the top-level `.catch`, which prints the same
kind of line, and the process still exits 0. -/
theorem c3_exit_codes (lang : Lang) (penv : PromptEnv) (a : Answers)
    (env : Env) :
    exitCodeOf (runMain lang penv a env).2 = 0
    ∧ (∀ m, jsToLowerCase penv.rawProjectNameInput ≠ "c" →
        penv.promptError = none →
        (createProjectBody lang a env).2 = some m →
        (runMain lang penv a env).1 =
          (createProjectBody lang a env).1 ++
            [.logError (getMsg lang .errorOccurred ++ m)]
        ∧ countErrorLogs (runMain lang penv a env).1 = 1)
    ∧ (∀ m, jsToLowerCase penv.rawProjectNameInput ≠ "c" →
        penv.promptError = some m →
        (runMain lang penv a env).1 =
          [.logError (getMsg lang .errorOccurred ++ m)]) := by
  refine ⟨?_, ?_, ?_⟩
  · unfold runMain
    split
    · rfl
    · cases penv.promptError <;> rfl
  · intro m hnc hpe hbody
    have hrun : (runMain lang penv a env).1 = createProjectRun lang a env := by
      unfold runMain
      rw [if_neg hnc, hpe]
    have hpair : createProjectBody lang a env =
        ((createProjectBody lang a env).1, some m) := by
      rw [← hbody]
    have hcr : createProjectRun lang a env =
        (createProjectBody lang a env).1 ++
          [.logError (getMsg lang .errorOccurred ++ m)] := by
      unfold createProjectRun
      rw [hpair]
    constructor
    · rw [hrun, hcr]
    · rw [hrun, hcr, countErrorLogs_append, c3aux_body lang a env m hbody]
      rfl
  · intro m hnc hpe
    unfold runMain
    rw [if_neg hnc, hpe]

/-- Witness for C3 amended: the failing-install run prints exactly one
error line. -/
theorem c3_witness :
    countErrorLogs (runMain Lang.en penvDemo exAnswersHttps
      envInstallFails).1 = 1 :=
  ((c3_exit_codes Lang.en penvDemo exAnswersHttps envInstallFails).2.1
    "Command failed: npm install" (by decide) rfl (by decide)).2

/-- C1 counterexample: for the valid ssh answer set whose template URL
`git@github.com:my.gitx/repo.git` contains `.git` in a non-trailing
position, the rewrite does not strip the trailing `.git` suffix — the
source's `replace('.git', '')` removes the first occurrence instead, so
`bugs.url` comes out as `git@github.com:myx/repo.git/issues` rather than
`git@github.com:my.gitx/repo/issues`. -/
theorem c1_counterexample :
    ValidAnswers parseNone Lang.en "ssh" exAnswersSsh ∧
    (updatePackage exAnswersSsh exPkg).bugs_url =
      "git@github.com:myx/repo.git/issues" ∧
    ¬ manifestRewriteClaim exAnswersSsh exPkg := by
  refine ⟨by decide, by decide, by decide⟩

/-- C1 amended: the rewrite sets `name`, `version` (exactly `"1.0.0"`),
`description`, `author`, `license`, `keywords` to the answers,
`repository.url` to the new URL when supplied and the template URL
otherwise, and derives `bugs.url` / `homepage` from the repository URL by
removing the FIRST occurrence of `.git` (JS `replace` with a string
pattern); when `.git` occurs only as a trailing suffix this coincides with
stripping the trailing suffix, as the claim stated. -/
theorem c1_manifest_rewrite (a : Answers) (p : PackageFile) :
    (updatePackage a p).name = a.packageName
    ∧ (updatePackage a p).version = "1.0.0"
    ∧ (updatePackage a p).description = a.description
    ∧ (updatePackage a p).author = a.author
    ∧ (updatePackage a p).license = a.license
    ∧ (updatePackage a p).keywords = a.keywords
    ∧ (updatePackage a p).repository_url =
        (if a.newRepoURL = "" then a.repoURL else a.newRepoURL)
    ∧ (updatePackage a p).bugs_url =
        jsReplaceOnce ".git" (jsOrElse a.newRepoURL a.repoURL) ++ "/issues"
    ∧ (updatePackage a p).homepage =
        jsReplaceOnce ".git" (jsOrElse a.newRepoURL a.repoURL) ++ "#readme"
    ∧ (onlyTrailingGit (jsOrElse a.newRepoURL a.repoURL) →
        (updatePackage a p).bugs_url =
          specStripTrailingGit (jsOrElse a.newRepoURL a.repoURL) ++ "/issues"
        ∧ (updatePackage a p).homepage =
          specStripTrailingGit (jsOrElse a.newRepoURL a.repoURL) ++ "#readme") := by
  refine ⟨rfl, rfl, rfl, rfl, rfl, rfl, rfl, rfl, rfl, ?_⟩
  intro h
  constructor <;> rw [← jsReplaceOnce_eq_strip h] <;> rfl

/-- Witness for C1 amended: at the spec's end-to-end answers (URL without
any `.git`), the derived `bugs.url` agrees with the trailing-strip
reading. -/
theorem c1_witness :
    (updatePackage exAnswersHttps exPkg).bugs_url =
      specStripTrailingGit
        (jsOrElse exAnswersHttps.newRepoURL exAnswersHttps.repoURL) ++ "/issues" :=
  ((c1_manifest_rewrite exAnswersHttps exPkg).2.2.2.2.2.2.2.2.2 (by decide)).1

/-- C5: the URL validator, parameterized by the chosen kind: for kind
`https` it accepts an input iff the input parses as a URL with origin
exactly `https://github.com`; for kind `ssh` it accepts iff the input
matches `^git@github\.com:[\w.-]+\/[\w.-]+\.git$` (so
`git@github.com:acme/widget` without `.git` is rejected); every rejection
returns the localized invalid-URL message. -/
theorem c5_url_validator (parseOrigin : String → Option String) (lang : Lang) :
    (∀ url, isValidGitRepoURL parseOrigin lang url "https" = .ok ↔
      parseOrigin url = some "https://github.com")
    ∧ (∀ url, isValidGitRepoURL parseOrigin lang url "ssh" = .ok ↔ sshSpec url)
    ∧ isValidGitRepoURL parseOrigin lang "git@github.com:acme/widget" "ssh" =
        .err (getMsg lang .invalidGitRepoURL)
    ∧ (∀ url ty, isValidGitRepoURL parseOrigin lang url ty = .ok ∨
        isValidGitRepoURL parseOrigin lang url ty =
          .err (getMsg lang .invalidGitRepoURL)) := by
  refine ⟨?_, ?_, ?_, ?_⟩
  · intro url
    unfold isValidGitRepoURL
    rw [if_pos rfl]
    cases hpo : parseOrigin url with
    | none => simp
    | some o =>
      by_cases ho : o = "https://github.com" <;> simp [ho]
  · intro url
    unfold isValidGitRepoURL
    rw [if_neg (by decide), if_pos rfl]
    by_cases hs : sshRegexTest url = true
    · rw [if_pos hs]
      constructor
      · intro _
        exact (sshRegexTest_iff url).mp hs
      · intro _
        rfl
    · rw [if_neg hs]
      constructor
      · intro h
        simp at h
      · intro hspec
        exact ((hs ((sshRegexTest_iff url).mpr hspec)).elim)
  · have h : sshRegexTest "git@github.com:acme/widget" = false := by decide
    unfold isValidGitRepoURL
    rw [if_neg (by decide), if_pos rfl, h]
    rfl
  · intro url ty
    unfold isValidGitRepoURL
    by_cases h1 : ty = "https"
    · rw [if_pos h1]
      cases hpo : parseOrigin url with
      | none => right; rfl
      | some o =>
        by_cases ho : o = "https://github.com"
        · left
          simp [ho]
        · right
          simp [ho]
    · rw [if_neg h1]
      by_cases h2 : ty = "ssh"
      · rw [if_pos h2]
        by_cases hs : sshRegexTest url = true
        · left
          rw [if_pos hs]
        · right
          rw [if_neg hs]
      · right
        rw [if_neg h2]

/-- Witness for C5: the ssh characterization applied at a concrete valid
ssh URL. -/
theorem c5_witness :
    isValidGitRepoURL parseNone .en "git@github.com:acme/widget.git" "ssh" = .ok :=
  ((c5_url_validator parseNone .en).2.1 "git@github.com:acme/widget.git").mpr
    ⟨"acme".data, "widget".data, by decide, by decide, by decide, by decide,
      by decide⟩

/-- C10: for every kind string that is neither `https` nor `ssh`, the URL
validator rejects every input with the localized invalid-URL message. -/
theorem c10_unknown_kind_rejected (parseOrigin : String → Option String)
    (lang : Lang) (url ty : String) (h1 : ty ≠ "https") (h2 : ty ≠ "ssh") :
    isValidGitRepoURL parseOrigin lang url ty =
      .err (getMsg lang .invalidGitRepoURL) := by
  unfold isValidGitRepoURL
  rw [if_neg h1, if_neg h2]

/-- Witness for C10 at the concrete kind `list` and a concrete input. -/
theorem c10_witness :
    isValidGitRepoURL parseNone .en "git@github.com:acme/widget.git" "list" =
      .err (getMsg .en .invalidGitRepoURL) :=
  c10_unknown_kind_rejected parseNone .en "git@github.com:acme/widget.git" "list"
    (by decide) (by decide)

end TsCliTemplateMaker
